import Mathlib

namespace ProfileOptimizer

/-!
Verification of the profile-optimizer decision engine.

Shallow embedding of the scoring, selection, sequencing, graph-edge and
delivery-tracking code of the repository:

* `scoreQuestionForMember` embeds `QuestionTargetingAgent._score_question_for_member`
  (`app/agents/question_targeting.py`).
* `selectCandidate` / `batchDecision` embed the stochastic selection step of
  `QuestionTargetingAgent.batch_target_questions`.
* `save_edge` embeds `app/tools/graph_tools.py::save_edge` over an explicit
  edge store.
* `buildQueue` / `sequenceQueue` embed `QuestionQueueBuilder.build_queue` and
  `QuestionQueueBuilder._sequence` (`app/services/question_queue.py`).
* `get_or_create_delivery`, `assign_question_to_member` and
  `respond_to_question` embed the delivery tracker
  (`app/api/mobile_endpoints.py`, `app/tools/targeting_tools.py`).

Python floats are modelled as `ℚ`, machine ints as `Int`/`Nat`, database rows
as explicit lists of records, and `random.random()` / `random.choice` as
explicit numeric draws passed in as arguments.
-/

/-- Delivery channels (`DeliveryChannel` in `app/models.py`). -/
inductive Channel where
  | mobile_swipe
  | clubhouse_display
  | email
  | sms
  | web_chat
deriving DecidableEq, Repr

/-- Delivery statuses (`DeliveryStatus` in `app/models.py`). -/
inductive DStatus where
  | pending
  | delivered
  | viewed
  | answered
  | skipped
  | expired
deriving DecidableEq, Repr

/-! ## Relevance scorer (`_score_question_for_member`) -/

/-- Taste-profile slice of the member context used by the scorer. `none`
models a missing (or empty, hence falsy) `taste_profile` dict. -/
structure TasteCtx where
  vibe_words : List String
  avoid_words : List String
  this_week_energy : Option String
deriving DecidableEq, Repr

/-- Member context as consumed by `_score_question_for_member`:
`member_id`, the ids of `member_context["patterns"]`, the taste profile, and
whether `engagement.last_question_at` parses to a moment less than 24 hours
ago. -/
structure MemberCtx where
  member_id : Nat
  patternIds : List Nat
  taste_profile : Option TasteCtx
  lastQuestionWithin24h : Bool
deriving DecidableEq, Repr

/-- Question dict as consumed by the scorer: `targeting_criteria.pattern_ids`,
`relevant_member_ids`, `edge_context.connected_member_id`, `vibe`, `category`
(`none` models a missing or empty, hence falsy, category), `difficulty_level`
and `question_type`. -/
structure QuestionCtx where
  id : Nat
  targetPatternIds : List Nat
  relevant_member_ids : List Nat
  edgeContextConnectedId : Option Nat
  vibe : Option String
  category : Option String
  difficulty_level : Int
  question_type : String
deriving DecidableEq, Repr

/-- Vibe vocabulary (`vibe_mapping` inside `_score_question_for_member`);
an unknown vibe maps to `[]` exactly as `dict.get(_, [])` does. -/
def vibeMapping : String → List String
  | "warm" => ["cozy", "warm", "friendly", "welcoming"]
  | "playful" => ["fun", "playful", "quirky", "weird"]
  | "deep" => ["thoughtful", "introspective", "meaningful", "deep"]
  | "edgy" => ["provocative", "challenging", "edgy", "bold"]
  | "connector" => ["social", "community", "connecting", "networking"]
  | _ => []

/-- Pattern relevance factor (0-30). -/
def patternRelevance (q : QuestionCtx) (m : MemberCtx) : Int :=
  if m.patternIds.any (fun p => q.targetPatternIds.contains p) then 30
  else if q.relevant_member_ids.contains m.member_id then 25
  else if m.patternIds ≠ [] then 10
  else 0

/-- Edge-context factor (0-25); `connectedIds` are the
`connected_member_id`s of the member's edges. -/
def edgeContextScore (q : QuestionCtx) (connectedIds : List Nat) : Int :=
  if q.relevant_member_ids.any (fun i => connectedIds.contains i) then 25
  else if (q.edgeContextConnectedId.elim false (fun i => connectedIds.contains i)) then 20
  else if connectedIds ≠ [] ∧ q.relevant_member_ids ≠ [] then 5
  else 0

/-- Taste/vibe factor (0-25), including the energy adjustment. -/
def tasteMatch (q : QuestionCtx) (m : MemberCtx) : Int :=
  match m.taste_profile, q.vibe with
  | some taste, some qv =>
    let matching := vibeMapping qv
    let base : Int :=
      if matching.any (fun v => taste.vibe_words.contains v) then 25
      else if matching.any (fun v => taste.avoid_words.contains v) then 0
      else 12
    if taste.this_week_energy = some "low" ∧ qv = "deep" then max 0 (base - 10)
    else if taste.this_week_energy = some "high" ∧ qv = "playful" then min 25 (base + 5)
    else base
  | _, _ => 12

/-- Freshness factor (0-10); `categoryDist` is
`answered_questions["category_distribution"]`. -/
def freshness (q : QuestionCtx) (m : MemberCtx) (categoryDist : List (String × Nat)) : Int :=
  let base : Int :=
    match q.category with
    | some cat =>
      if categoryDist ≠ [] then
        let c := (categoryDist.lookup cat).getD 0
        if c ≥ 5 then 2 else if c ≥ 3 then 5 else 10
      else 10
    | none => 10
  if m.lastQuestionWithin24h then max 0 (base - 5) else base

/-- Channel-fit factor (0-10); `sms` falls through to the neutral default 5. -/
def channelFit (q : QuestionCtx) (ch : Channel) : Int :=
  match ch with
  | .mobile_swipe =>
    if q.difficulty_level = 1 ∧ (q.question_type = "yes_no" ∨ q.question_type = "multiple_choice")
    then 10
    else if q.difficulty_level ≤ 2 then 7 else 3
  | .clubhouse_display =>
    if q.vibe = some "connector" ∨ q.vibe = some "playful" then 10
    else if q.difficulty_level ≤ 2 then 7 else 5
  | .email =>
    if q.difficulty_level ≥ 2 ∧ q.question_type = "free_form" then 10
    else if q.difficulty_level ≥ 2 then 7 else 5
  | .web_chat => 7
  | .sms => 5

/-- Named score breakdown, mirroring the `breakdown` dict. -/
structure ScoreBreakdown where
  pattern_relevance : Int
  edge_context : Int
  taste_match : Int
  freshness : Int
  channel_fit : Int
deriving DecidableEq, Repr

/-- Full scorer: returns the breakdown and the accumulated total, exactly as
`_score_question_for_member` accumulates `score`. -/
def scoreQuestionForMember (q : QuestionCtx) (m : MemberCtx)
    (connectedIds : List Nat) (categoryDist : List (String × Nat)) (ch : Channel) :
    ScoreBreakdown × Int :=
  let p := patternRelevance q m
  let e := edgeContextScore q connectedIds
  let t := tasteMatch q m
  let f := freshness q m categoryDist
  let c := channelFit q ch
  (⟨p, e, t, f, c⟩, p + e + t + f + c)

/-! ## Graph / edge management (`graph_tools.py::save_edge`) -/

/-- Edge types (`EdgeType` in `app/models.py`). -/
inductive EdgeType where
  | shared_skill
  | shared_interest
  | collaboration_potential
  | event_co_attendance
  | introduced_by_agent
  | pattern_connection
deriving DecidableEq, Repr

/-- String-to-enum conversion (`EdgeType(edge_type_str)`, `ValueError` as `none`). -/
def parseEdgeType : String → Option EdgeType
  | "shared_skill" => some .shared_skill
  | "shared_interest" => some .shared_interest
  | "collaboration_potential" => some .collaboration_potential
  | "event_co_attendance" => some .event_co_attendance
  | "introduced_by_agent" => some .introduced_by_agent
  | "pattern_connection" => some .pattern_connection
  | _ => none

/-- Evidence payload value: a JSON list (modelled as a list of strings) or a
scalar payload. -/
inductive EvVal where
  | vlist : List String → EvVal
  | vscalar : String → EvVal
deriving DecidableEq, Repr

/-- Evidence dict, as an insertion-ordered association list with unique keys. -/
abbrev Evidence := List (String × EvVal)

/-- Dict access `m.get(k)`. -/
def evLookup : Evidence → String → Option EvVal
  | [], _ => none
  | (k0, v0) :: rest, k => if k0 = k then some v0 else evLookup rest k

/-- Dict assignment `m[k] = v`: replaces the value in place if the key exists,
appends otherwise (Python dicts preserve insertion order). -/
def setKey : Evidence → String → EvVal → Evidence
  | [], k, v => [(k, v)]
  | (k0, v0) :: rest, k, v =>
    if k0 = k then (k0, v) :: rest else (k0, v0) :: setKey rest k v

/-- One iteration of the evidence-merge loop in `save_edge`: a list-valued
field present in both dicts is unioned (`list(set(old + new))`, modelled as
deduplication of the concatenation), anything else is overwritten. -/
def mergeStep (acc : Evidence) (k : String) (v : EvVal) : Evidence :=
  match evLookup acc k, v with
  | some (.vlist old), .vlist xs => setKey acc k (.vlist ((old ++ xs).dedup))
  | _, _ => setKey acc k v

/-- Evidence merge loop of `save_edge` (`for key, value in evidence.items()`). -/
def mergeEvidence (existing newEv : Evidence) : Evidence :=
  newEv.foldl (fun acc kv => mergeStep acc kv.1 kv.2) existing

/-- Stored `MemberEdge` row. -/
structure EdgeRow where
  id : Nat
  member_a_id : Nat
  member_b_id : Nat
  edge_type : EdgeType
  strength : Int
  evidence : Evidence
  is_active : Bool
deriving DecidableEq, Repr

/-- Edge table plus the id the database would hand to the next insert. -/
structure GraphStore where
  rows : List EdgeRow
  nextId : Nat
deriving DecidableEq, Repr

/-- Input dict of `save_edge`. `edge_type = none` models a missing or empty
(hence falsy) string; member id 0 models the falsy-id case of
`if not member_a_id`. -/
structure EdgeData where
  member_a_id : Nat
  member_b_id : Nat
  edge_type : Option String
  strength : Int
  evidence : Evidence
deriving DecidableEq, Repr

inductive SaveStatus where
  | created
  | updated
  | already_exists
deriving DecidableEq, Repr

/-- Result dict of `save_edge`: an error message, or `(id, status, strength)`. -/
inductive SaveResult where
  | error : String → SaveResult
  | ok : Nat → SaveStatus → Int → SaveResult
deriving DecidableEq, Repr

/-- Lookup of the existing active edge for a canonical pair and type
(`scalar_one_or_none` on the conjunctive filter). -/
def findActiveEdge (rows : List EdgeRow) (a b : Nat) (t : EdgeType) : Option EdgeRow :=
  rows.find? (fun e =>
    decide (e.member_a_id = a ∧ e.member_b_id = b ∧ e.edge_type = t ∧ e.is_active = true))

/-- Row update by primary key (the ORM mutation of `existing_edge`). -/
def updateRow (rows : List EdgeRow) (i : Nat) (e' : EdgeRow) : List EdgeRow :=
  rows.map (fun r => if r.id = i then e' else r)

/-- Embedding of `graph_tools.py::save_edge`: validation, member-order
canonicalization, monotonic strengthen-and-merge on conflict, insert
otherwise. -/
def save_edge (store : GraphStore) (d : EdgeData) : SaveResult × GraphStore :=
  if d.member_a_id = 0 ∨ d.member_b_id = 0 then
    (.error "Both member_a_id and member_b_id are required", store)
  else if d.member_a_id = d.member_b_id then
    (.error "Cannot create edge between a member and themselves", store)
  else
    match d.edge_type with
    | none => (.error "edge_type is required", store)
    | some ts =>
      match parseEdgeType ts with
      | none => (.error "Invalid edge_type", store)
      | some t =>
        if ¬(0 ≤ d.strength ∧ d.strength ≤ 100) then
          (.error "strength must be between 0 and 100", store)
        else
          let na := min d.member_a_id d.member_b_id
          let nb := max d.member_a_id d.member_b_id
          match findActiveEdge store.rows na nb t with
          | some e =>
            if e.strength < d.strength then
              let newEvidence :=
                if d.evidence = [] then e.evidence else mergeEvidence e.evidence d.evidence
              let e' := { e with strength := d.strength, evidence := newEvidence }
              (.ok e.id .updated d.strength, { store with rows := updateRow store.rows e.id e' })
            else
              (.ok e.id .already_exists e.strength, store)
          | none =>
            let e : EdgeRow := ⟨store.nextId, na, nb, t, d.strength, d.evidence, true⟩
            (.ok store.nextId .created d.strength, ⟨store.rows ++ [e], store.nextId + 1⟩)

/-- Same call with the two member ids passed in the opposite order. -/
def swapEdgeData (d : EdgeData) : EdgeData :=
  { d with member_a_id := d.member_b_id, member_b_id := d.member_a_id }

/-- Stored edge of the spec scenario: members 5 and 9, type `shared_skill`,
strength 40. -/
def egRow : EdgeRow := ⟨1, 5, 9, .shared_skill, 40, [("skills", .vlist ["python"])], true⟩

/-- Store holding just `egRow`. -/
def egStore : GraphStore := ⟨[egRow], 2⟩

/-- Rediscovery of the same pair at strength 70, ids in reversed order. -/
def egUp : EdgeData := ⟨9, 5, some "shared_skill", 70, [("skills", .vlist ["rust"])]⟩

/-- Inputs that pass every validation check of `save_edge`, with `t` the
parsed edge type. -/
def ValidEdgeData (d : EdgeData) (t : EdgeType) : Prop :=
  d.member_a_id ≠ 0 ∧ d.member_b_id ≠ 0 ∧ d.member_a_id ≠ d.member_b_id ∧
  (∃ ts, d.edge_type = some ts ∧ parseEdgeType ts = some t) ∧
  0 ≤ d.strength ∧ d.strength ≤ 100

/-! ## Batch selection policy (`batch_target_questions`, selection step) -/

/-- Scored-question entry of the batch loop: question id, total score and
the pattern/edge components of the score breakdown. -/
structure ScoredQ where
  qid : Nat
  score : Int
  pattern_relevance : Int
  edge_context : Int
deriving DecidableEq, Repr

/-- Stable descending sort by score
(`scored_questions.sort(key=lambda x: x["score"], reverse=True)`). -/
def sortByScoreDesc (l : List ScoredQ) : List ScoredQ :=
  l.mergeSort (fun a b => decide (b.score ≤ a.score))

/-- Stochastic selection step of `batch_target_questions`: `r` is the value
of `random.random()`, and `i5` / `ipool` are the index draws of the two
possible `random.choice` calls (taken modulo the list length, mirroring a
uniform draw over the indices). Returns the chosen entry together with its
`selection_method` tag, or `none` when nothing qualifies. -/
def selectCandidate (scored : List ScoredQ) (minScore : Int) (r : ℚ)
    (i5 ipool : Nat) : Option (ScoredQ × String) :=
  if r < 7/10 then
    match scored with
    | [] => none
    | q :: _ => if minScore ≤ q.score then some (q, "highest_score") else none
  else if r < 9/10 then
    let top5 := (scored.take 5).filter (fun sq =>
      decide (0 < sq.pattern_relevance ∨ 0 < sq.edge_context))
    if h5 : top5 = [] then
      match scored with
      | [] => none
      | q :: _ => if minScore ≤ q.score then some (q, "highest_score_fallback") else none
    else
      some (top5.get ⟨i5 % top5.length, Nat.mod_lt _ (List.length_pos.mpr h5)⟩, "top_5_random")
  else
    if hp : scored = [] then none
    else
      some (scored.get ⟨ipool % scored.length, Nat.mod_lt _ (List.length_pos.mpr hp)⟩,
            "wildcard")

/-- Outcome the batch loop records for one member. -/
inductive BatchOutcome where
  | assigned : ScoredQ → String → BatchOutcome
  | skipped : String → BatchOutcome
deriving DecidableEq, Repr

/-- Per-member decision of `batch_target_questions` after scoring: an empty
pool short-circuits, otherwise the selection step runs and its pick is
assigned only when it meets `min_score`
(`if selected and selected["score"] >= min_score`). -/
def batchDecision (scoredRaw : List ScoredQ) (minScore : Int) (r : ℚ)
    (i5 ipool : Nat) : BatchOutcome :=
  if scoredRaw = [] then .skipped "no_available_questions"
  else
    match selectCandidate (sortByScoreDesc scoredRaw) minScore r i5 ipool with
    | some (q, m) =>
      if minScore ≤ q.score then .assigned q m else .skipped "no_question_met_threshold"
    | none => .skipped "no_question_met_threshold"

/-! ## Delivery tracker (`mobile_endpoints.py`, `targeting_tools.py`) -/

/-- Stored `QuestionDelivery` row (the fields the embedded operations touch). -/
structure DeliveryRow where
  id : Nat
  question_id : Nat
  member_id : Nat
  channel : Channel
  delivery_status : DStatus
  answered_at : Option Nat
  response_type : Option String
  response_value : Option String
  response_time_seconds : Option Nat
deriving DecidableEq, Repr

/-- Delivery table plus the id the database would hand the next insert. -/
structure DeliveryStore where
  rows : List DeliveryRow
  nextId : Nat
deriving DecidableEq, Repr

/-- Predicate of the `get_or_create_delivery` lookup: the active
(pending/delivered/viewed) mobile record for the (question, member) pair. -/
def isActiveMobileFor (question_id member_id : Nat) (d : DeliveryRow) : Bool :=
  decide (d.question_id = question_id ∧ d.member_id = member_id
    ∧ d.channel = Channel.mobile_swipe
    ∧ (d.delivery_status = .pending ∨ d.delivery_status = .delivered
       ∨ d.delivery_status = .viewed))

/-- `get_or_create_delivery` (mobile endpoints): return the existing
pending/delivered/viewed record for the triple, else create a fresh pending
one. -/
def get_or_create_delivery (store : DeliveryStore) (question_id member_id : Nat) :
    DeliveryRow × DeliveryStore :=
  match store.rows.find? (isActiveMobileFor question_id member_id) with
  | some d => (d, store)
  | none =>
    let d : DeliveryRow :=
      ⟨store.nextId, question_id, member_id, .mobile_swipe, .pending, none, none, none, none⟩
    (d, ⟨store.rows ++ [d], store.nextId + 1⟩)

/-- Result dict of `assign_question_to_member`: an error with its
`already_exists` flag, or the created delivery id. -/
inductive AssignResult where
  | error : String → Bool → AssignResult
  | created : Nat → AssignResult
deriving DecidableEq, Repr

/-- Predicate of the `assign_question_to_member` duplicate check: any record
for the (question, member, channel) triple, regardless of status. -/
def isDeliveryFor (question_id member_id : Nat) (ch : Channel) (d : DeliveryRow) : Bool :=
  decide (d.question_id = question_id ∧ d.member_id = member_id ∧ d.channel = ch)

/-- `assign_question_to_member` (targeting tools): question and member
existence checks, rejection of any second record for the (question, member,
channel) triple, then creation of a pending delivery. -/
def assign_question_to_member (questions members : List Nat) (store : DeliveryStore)
    (question_id member_id : Nat) (ch : Channel) : AssignResult × DeliveryStore :=
  if ¬questions.contains question_id then
    (.error "Question not found" false, store)
  else if ¬members.contains member_id then
    (.error "Member not found" false, store)
  else
    match store.rows.find? (isDeliveryFor question_id member_id ch) with
    | some _ => (.error "already delivered" true, store)
    | none =>
      let d : DeliveryRow :=
        ⟨store.nextId, question_id, member_id, ch, .pending, none, none, none, none⟩
      (.created store.nextId, ⟨store.rows ++ [d], store.nextId + 1⟩)

/-- Result of `respond_to_question`: the two 404 cases, or the updated row. -/
inductive RespondResult where
  | notFoundDelivery : RespondResult
  | notFoundQuestion : RespondResult
  | ok : DeliveryRow → RespondResult
deriving DecidableEq, Repr

/-- Row update by primary key (the ORM mutation of `delivery`). -/
def updateDelivery (rows : List DeliveryRow) (i : Nat) (d' : DeliveryRow) : List DeliveryRow :=
  rows.map (fun r => if r.id = i then d' else r)

/-- Predicate of the `respond_to_question` lookup: the mobile record for the
pair that is in `delivered` or `viewed` state. -/
def isAnswerableFor (question_id member_id : Nat) (d : DeliveryRow) : Bool :=
  decide (d.question_id = question_id ∧ d.member_id = member_id
    ∧ d.channel = Channel.mobile_swipe
    ∧ (d.delivery_status = .delivered ∨ d.delivery_status = .viewed))

/-- `respond_to_question` (mobile endpoints): only a delivery in
`delivered`/`viewed` state accepts an answer; on success the record moves to
the terminal `answered` state with `answered_at` stamped `now`.
`questionTypes` maps question id to `question_type.value`. -/
def respond_to_question (questionTypes : List (Nat × String)) (store : DeliveryStore)
    (question_id member_id : Nat) (response_value : String)
    (response_time_seconds : Option Nat) (now : Nat) : RespondResult × DeliveryStore :=
  match store.rows.find? (isAnswerableFor question_id member_id) with
  | none => (.notFoundDelivery, store)
  | some d =>
    match questionTypes.lookup question_id with
    | none => (.notFoundQuestion, store)
    | some qt =>
      let d' := { d with
                    delivery_status := DStatus.answered,
                    answered_at := some now,
                    response_type := some qt,
                    response_value := some response_value,
                    response_time_seconds := response_time_seconds }
      (.ok d', { store with rows := updateDelivery store.rows d.id d' })

/-! ## Question queue builder (`services/question_queue.py`) -/

/-- Member row fields the queue builder consumes. `none` models a null or
empty (hence falsy) string field; null list fields are modelled as `[]`. -/
structure QMember where
  skills : List String
  interests : List String
  bio : Option String
  role : Option String
  company : Option String
  location : Option String
  website : Option String
  prompt_responses : List String
deriving DecidableEq, Repr

/-- Pattern row fields the queue builder consumes. The two key variants per
vocabulary mirror `evidence.get("skills") or evidence.get("skill_names")`. -/
structure QPattern where
  id : Nat
  name : String
  related_member_ids : List Nat
  evidence_skills : List String
  evidence_skill_names : List String
  evidence_interests : List String
  evidence_interest_names : List String
deriving DecidableEq, Repr

/-- Question row fields the queue builder consumes. -/
structure QQuestion where
  id : Nat
  difficulty_level : Nat
  related_pattern_ids : List Nat
  related_profile_fields : List String
deriving DecidableEq, Repr

/-- Lower-cased set of a string list (`set(s.lower() for s in xs)`). -/
def lowerSet (xs : List String) : Finset String :=
  (xs.map String.toLower).toFinset

/-- Evidence skill vocabulary of a pattern
(`evidence.get("skills") or evidence.get("skill_names") or []`). -/
def evSkills (p : QPattern) : Finset String :=
  lowerSet (if p.evidence_skills ≠ [] then p.evidence_skills else p.evidence_skill_names)

/-- Evidence interest vocabulary of a pattern
(`evidence.get("interests") or evidence.get("interest_names") or []`). -/
def evInterests (p : QPattern) : Finset String :=
  lowerSet (if p.evidence_interests ≠ [] then p.evidence_interests else p.evidence_interest_names)

/-- Affinity blend of `build_queue` step b:
`0.6 * skill_overlap + 0.4 * interest_overlap`, a term with empty evidence
contributing 0. -/
def patternAffinity (mSkills mInterests eSkills eInterests : Finset String) : ℚ :=
  let skill_overlap : ℚ :=
    if eSkills ≠ ∅ then ((mSkills ∩ eSkills).card : ℚ) / ((eSkills.card : ℚ)) else 0
  let interest_overlap : ℚ :=
    if eInterests ≠ ∅ then ((mInterests ∩ eInterests).card : ℚ) / ((eInterests.card : ℚ)) else 0
  6/10 * skill_overlap + 4/10 * interest_overlap

/-- Affinity of a member to a pattern, on the lower-cased vocabularies. -/
def affinityFor (m : QMember) (p : QPattern) : ℚ :=
  patternAffinity (lowerSet m.skills) (lowerSet m.interests) (evSkills p) (evInterests p)

/-- Ids of the patterns whose `related_member_ids` contain the member
(the `member_pattern_ids` list of `build_queue`). -/
def memberPatternIds (memberId : Nat) (patterns : List QPattern) : List Nat :=
  (patterns.filter (fun p => p.related_member_ids.contains memberId)).map (fun p => p.id)

/-- Affinity map of `build_queue` step b: patterns the member is not in,
with non-empty evidence, whose affinity meets the 0.3 threshold. -/
def patternAffinities (m : QMember) (memberId : Nat) (patterns : List QPattern) :
    List (Nat × ℚ) :=
  (patterns.filter (fun p => decide (¬p.related_member_ids.contains memberId = true
      ∧ (evSkills p ≠ ∅ ∨ evInterests p ≠ ∅)
      ∧ 3/10 ≤ affinityFor m p))).map (fun p => (p.id, affinityFor m p))

/-- Profile-gap detection (`_detect_profile_gaps`), as the gap field names. -/
def detectProfileGaps (m : QMember) : List String :=
  (if m.bio.elim true (fun b => decide (b.length < 50)) then ["bio"] else [])
  ++ (if m.role = none then ["role"] else [])
  ++ (if m.company = none then ["company"] else [])
  ++ (if m.location = none then ["location"] else [])
  ++ (if m.website = none then ["website"] else [])
  ++ (if m.skills.length < 3 then ["skills"] else [])
  ++ (if m.interests.length < 1 then ["interests"] else [])
  ++ (if m.prompt_responses.length < 1 then ["prompt_responses"] else [])

/-- Primary-reason tag of a scored question. The source stores reason
strings and recovers the primary reason by substring matching; the tags
model those markers structurally. -/
inductive QReason where
  | minimum
  | pattern_probe
  | pattern_deepen
  | profile_gap
  | fallback
deriving DecidableEq, Repr

instance : Inhabited QReason := ⟨.minimum⟩

/-- Queue entry produced by the scoring loop (`ScoredQuestion`, projected to
the fields the sequencer reads). -/
structure ScoredQ4 where
  question_id : Nat
  difficulty : Nat
  score : ℚ
  reason : QReason
deriving DecidableEq, Repr

instance : Inhabited ScoredQ4 := ⟨⟨0, 0, 0, .minimum⟩⟩

/-- Scoring of one question (`build_queue` step c). `affin` is the affinity
map, `mpids` the member's pattern ids, `gapFields` the gap field names.
Python set iteration over `q_pattern_ids` visits each distinct id once,
modelled with `dedup`. -/
def scoreQueueQuestion (q : QQuestion) (affin : List (Nat × ℚ))
    (mpids : List Nat) (gapFields : List String) : ScoredQ4 :=
  let qPatternIds := q.related_pattern_ids.dedup
  let qFields := q.related_profile_fields.dedup
  let probed := qPatternIds.filter (fun pid => (affin.lookup pid).isSome)
  let deepened := qPatternIds.filter (fun pid => mpids.contains pid)
  let matchingGaps := qFields.filter (fun f => gapFields.contains f)
  let score : ℚ :=
    1/10
    + (probed.filterMap (fun pid => (affin.lookup pid).map (fun a => 10 * a))).sum
    + (if deepened ≠ [] then
        5 * ((deepened.length : ℚ) / ((max mpids.length 1 : Nat) : ℚ)) else 0)
    + (if matchingGaps ≠ [] then
        4 * ((matchingGaps.length : ℚ) / ((max qFields.length 1 : Nat) : ℚ)) else 0)
    + (if qFields ≠ [] ∧ qPatternIds = [] then 1 else 0)
  let reason : QReason :=
    if probed ≠ [] then .pattern_probe
    else if deepened ≠ [] then .pattern_deepen
    else if matchingGaps ≠ [] then .profile_gap
    else if qFields ≠ [] ∧ qPatternIds = [] then .fallback
    else .minimum
  ⟨q.id, q.difficulty_level, score, reason⟩

/-- Comparison key of `_sequence.pick_best.sort_key`:
`(diff_match + reason_match, score)`, compared lexicographically. -/
def bucketKey (pd : Nat) (pr : QReason) (sq : ScoredQ4) : Nat × ℚ :=
  ((if sq.difficulty = pd then 1 else 0) + (if sq.reason = pr then 1 else 0), sq.score)

/-- Lexicographic "at least" on keys: `keyGe x y` holds when `y` sorts no
higher than `x` in the descending order. -/
def keyGe (x y : Nat × ℚ) : Prop :=
  y.1 < x.1 ∨ (y.1 = x.1 ∧ y.2 ≤ x.2)

instance (x y : Nat × ℚ) : Decidable (keyGe x y) := by
  unfold keyGe
  infer_instance

/-- Comparator of the descending stable sort
(`pool.sort(key=sort_key, reverse=True)`). -/
def bucketLe (pd : Nat) (pr : QReason) (a b : ScoredQ4) : Bool :=
  decide (keyGe (bucketKey pd pr a) (bucketKey pd pr b))

/-- One bucket pass of `_sequence`: `k` iterations of
`pool.sort(key, reverse=True); best = pool[0]; remaining.remove(best)`;
the sorted tail is the pool left for the next iteration. The loop bound is
always instantiated with `min (bucket size) (pool size)`, so the empty-pool
branch (the `ValueError` of `pick_best`) is never reached. -/
def fillBucket (pd : Nat) (pr : QReason) : Nat → List ScoredQ4 → List ScoredQ4 × List ScoredQ4
  | 0, rem => ([], rem)
  | _ + 1, [] => ([], [])
  | k + 1, x :: xs =>
    let sorted := (x :: xs).mergeSort (bucketLe pd pr)
    let next := fillBucket pd pr k sorted.tail
    (sorted.headI :: next.1, next.2)

/-- `_sequence`: three bucket passes (sizes 3, 4, 3), preferring
(difficulty 1, profile_gap), (difficulty 2, pattern_probe) and
(difficulty 3, pattern_deepen) in turn. -/
def sequenceQueue (qs : List ScoredQ4) : List ScoredQ4 :=
  let s1 := fillBucket 1 .profile_gap (min 3 qs.length) qs
  let s2 := fillBucket 2 .pattern_probe (min 4 s1.2.length) s1.2
  let s3 := fillBucket 3 .pattern_deepen (min 3 s2.2.length) s2.2
  s1.1 ++ s2.1 ++ s3.1

/-- Descending stable sort by score
(`scored.sort(key=lambda s: s.score, reverse=True)`). -/
def sortQ4ByScoreDesc (l : List ScoredQ4) : List ScoredQ4 :=
  l.mergeSort (fun a b => decide (b.score ≤ a.score))

/-- `build_queue` steps b-d: affinity map, profile gaps, scoring, top-10
selection, sequencing. The data-loading step a (member row, active patterns,
active unanswered questions) supplies the arguments. -/
def buildQueue (memberId : Nat) (m : QMember) (patterns : List QPattern)
    (questions : List QQuestion) : List ScoredQ4 :=
  let affin := patternAffinities m memberId patterns
  let mpids := memberPatternIds memberId patterns
  let gaps := detectProfileGaps m
  let scored := questions.map (fun q => scoreQueueQuestion q affin mpids gaps)
  sequenceQueue ((sortQ4ByScoreDesc scored).take 10)

/-! ## Theorems -/

theorem patternRelevance_bounds (q : QuestionCtx) (m : MemberCtx) :
    0 ≤ patternRelevance q m ∧ patternRelevance q m ≤ 30 := by
  unfold patternRelevance
  split
  · omega
  split
  · omega
  split <;> omega

theorem edgeContextScore_bounds (q : QuestionCtx) (ids : List Nat) :
    0 ≤ edgeContextScore q ids ∧ edgeContextScore q ids ≤ 25 := by
  unfold edgeContextScore
  split
  · omega
  split
  · omega
  split <;> omega

theorem tasteMatch_bounds (q : QuestionCtx) (m : MemberCtx) :
    0 ≤ tasteMatch q m ∧ tasteMatch q m ≤ 25 := by
  unfold tasteMatch
  rcases m.taste_profile with _ | taste <;> rcases q.vibe with _ | qv <;> simp only
  · omega
  · omega
  · omega
  · split
    · split
      · omega
      split <;> omega
    split
    · split
      · omega
      split <;> omega
    split
    · omega
    split <;> omega

theorem freshness_bounds (q : QuestionCtx) (m : MemberCtx) (d : List (String × Nat)) :
    0 ≤ freshness q m d ∧ freshness q m d ≤ 10 := by
  unfold freshness
  rcases q.category with _ | cat <;> simp only <;> (repeat' split) <;> omega

theorem channelFit_bounds (q : QuestionCtx) (ch : Channel) :
    0 ≤ channelFit q ch ∧ channelFit q ch ≤ 10 := by
  unfold channelFit
  cases ch <;> simp only
  · split
    · omega
    split <;> omega
  · split
    · omega
    split <;> omega
  · split
    · omega
    split <;> omega
  · omega
  · omega

/-- C1: for every question, member context, edge list, answered-question
history and channel, the scorer's total equals the sum of the five breakdown
components, each component is non-negative and capped (pattern ≤ 30,
edge ≤ 25, taste ≤ 25, freshness ≤ 10, channel ≤ 10), and the total lies in
[0, 100]. -/
theorem score_total_additive_and_bounded (q : QuestionCtx) (m : MemberCtx)
    (connectedIds : List Nat) (categoryDist : List (String × Nat)) (ch : Channel) :
    (scoreQuestionForMember q m connectedIds categoryDist ch).2
      = (scoreQuestionForMember q m connectedIds categoryDist ch).1.pattern_relevance
        + (scoreQuestionForMember q m connectedIds categoryDist ch).1.edge_context
        + (scoreQuestionForMember q m connectedIds categoryDist ch).1.taste_match
        + (scoreQuestionForMember q m connectedIds categoryDist ch).1.freshness
        + (scoreQuestionForMember q m connectedIds categoryDist ch).1.channel_fit
    ∧ 0 ≤ (scoreQuestionForMember q m connectedIds categoryDist ch).1.pattern_relevance
    ∧ (scoreQuestionForMember q m connectedIds categoryDist ch).1.pattern_relevance ≤ 30
    ∧ 0 ≤ (scoreQuestionForMember q m connectedIds categoryDist ch).1.edge_context
    ∧ (scoreQuestionForMember q m connectedIds categoryDist ch).1.edge_context ≤ 25
    ∧ 0 ≤ (scoreQuestionForMember q m connectedIds categoryDist ch).1.taste_match
    ∧ (scoreQuestionForMember q m connectedIds categoryDist ch).1.taste_match ≤ 25
    ∧ 0 ≤ (scoreQuestionForMember q m connectedIds categoryDist ch).1.freshness
    ∧ (scoreQuestionForMember q m connectedIds categoryDist ch).1.freshness ≤ 10
    ∧ 0 ≤ (scoreQuestionForMember q m connectedIds categoryDist ch).1.channel_fit
    ∧ (scoreQuestionForMember q m connectedIds categoryDist ch).1.channel_fit ≤ 10
    ∧ 0 ≤ (scoreQuestionForMember q m connectedIds categoryDist ch).2
    ∧ (scoreQuestionForMember q m connectedIds categoryDist ch).2 ≤ 100 := by
  have hp := patternRelevance_bounds q m
  have he := edgeContextScore_bounds q connectedIds
  have ht := tasteMatch_bounds q m
  have hf := freshness_bounds q m categoryDist
  have hc := channelFit_bounds q ch
  refine ⟨rfl, hp.1, hp.2, he.1, he.2, ht.1, ht.2, hf.1, hf.2, hc.1, hc.2, ?_, ?_⟩
  · show 0 ≤ patternRelevance q m + edgeContextScore q connectedIds + tasteMatch q m
        + freshness q m categoryDist + channelFit q ch
    omega
  · show patternRelevance q m + edgeContextScore q connectedIds + tasteMatch q m
        + freshness q m categoryDist + channelFit q ch ≤ 100
    omega

theorem save_edge_valid_unfold (store : GraphStore) (d : EdgeData) (t : EdgeType)
    (hv : ValidEdgeData d t) :
    save_edge store d =
      (match findActiveEdge store.rows (min d.member_a_id d.member_b_id)
          (max d.member_a_id d.member_b_id) t with
       | some e =>
         if e.strength < d.strength then
           (.ok e.id .updated d.strength,
            { store with
                rows := updateRow store.rows e.id
                          { e with
                              strength := d.strength,
                              evidence := if d.evidence = [] then e.evidence
                                          else mergeEvidence e.evidence d.evidence } })
         else
           (.ok e.id .already_exists e.strength, store)
       | none =>
         (.ok store.nextId .created d.strength,
          ⟨store.rows ++ [⟨store.nextId, min d.member_a_id d.member_b_id,
             max d.member_a_id d.member_b_id, t, d.strength, d.evidence, true⟩],
           store.nextId + 1⟩)) := by
  obtain ⟨ha, hb, hab, ⟨ts, hts, hparse⟩, hs0, hs1⟩ := hv
  unfold save_edge
  rw [hts]
  simp only [hparse]
  rw [if_neg (by tauto), if_neg hab, if_neg (not_not_intro ⟨hs0, hs1⟩)]

theorem evLookup_setKey_self (m : Evidence) (k : String) (v : EvVal) :
    evLookup (setKey m k v) k = some v := by
  induction m with
  | nil => simp [setKey, evLookup]
  | cons p rest ih =>
    obtain ⟨k0, v0⟩ := p
    by_cases h : k0 = k
    · simp [setKey, evLookup, h]
    · simp [setKey, evLookup, h, ih]

theorem evLookup_setKey_ne (m : Evidence) (k : String) (v : EvVal) (k' : String)
    (h : k' ≠ k) : evLookup (setKey m k v) k' = evLookup m k' := by
  have hne : ¬k = k' := fun hh => h hh.symm
  induction m with
  | nil => simp [setKey, evLookup, hne]
  | cons p rest ih =>
    obtain ⟨k0, v0⟩ := p
    by_cases h0 : k0 = k
    · subst h0
      simp [setKey, evLookup, hne]
    · simp only [setKey, if_neg h0, evLookup]
      by_cases h1 : k0 = k'
      · simp [h1]
      · simp [h1, ih]

theorem evLookup_mergeStep_ne (acc : Evidence) (k0 : String) (v0 : EvVal)
    (k : String) (h : k ≠ k0) : evLookup (mergeStep acc k0 v0) k = evLookup acc k := by
  unfold mergeStep
  rcases evLookup acc k0 with _ | w
  · rcases v0 with xs | s <;> exact evLookup_setKey_ne _ _ _ _ h
  · rcases w with old | s
    · rcases v0 with xs | s <;> exact evLookup_setKey_ne _ _ _ _ h
    · rcases v0 with xs | s <;> exact evLookup_setKey_ne _ _ _ _ h

theorem evLookup_mergeEvidence_notin (ex newEv : Evidence) (k : String)
    (h : k ∉ newEv.map Prod.fst) :
    evLookup (mergeEvidence ex newEv) k = evLookup ex k := by
  induction newEv generalizing ex with
  | nil => rfl
  | cons p rest ih =>
    obtain ⟨k0, v0⟩ := p
    simp only [List.map_cons, List.mem_cons, not_or] at h
    show evLookup (mergeEvidence (mergeStep ex k0 v0) rest) k = evLookup ex k
    rw [ih _ h.2, evLookup_mergeStep_ne _ _ _ _ h.1]

theorem evLookup_mergeEvidence_union (ex newEv : Evidence) (k : String)
    (xs old : List String) (hnd : (newEv.map Prod.fst).Nodup)
    (hmem : (k, EvVal.vlist xs) ∈ newEv) (hex : evLookup ex k = some (.vlist old)) :
    evLookup (mergeEvidence ex newEv) k = some (.vlist ((old ++ xs).dedup)) := by
  induction newEv generalizing ex with
  | nil => cases hmem
  | cons p rest ih =>
    obtain ⟨k0, v0⟩ := p
    simp only [List.map_cons, List.nodup_cons] at hnd
    rcases List.mem_cons.mp hmem with hhead | htail
    · injection hhead with h1 h2
      subst h1
      subst h2
      show evLookup (mergeEvidence (mergeStep ex k (.vlist xs)) rest) k = _
      rw [evLookup_mergeEvidence_notin _ _ _ hnd.1]
      unfold mergeStep
      rw [hex]
      exact evLookup_setKey_self _ _ _
    · have hk0 : k ≠ k0 := by
        intro heq
        subst heq
        exact hnd.1 (List.mem_map_of_mem Prod.fst htail)
      show evLookup (mergeEvidence (mergeStep ex k0 v0) rest) k = _
      exact ih _ hnd.2 htail (by rw [evLookup_mergeStep_ne _ _ _ _ hk0]; exact hex)

theorem evLookup_mergeEvidence_overwrite (ex newEv : Evidence) (k : String) (v : EvVal)
    (hnd : (newEv.map Prod.fst).Nodup) (hmem : (k, v) ∈ newEv)
    (hnl : ∀ xs, v = EvVal.vlist xs → ∀ old, evLookup ex k ≠ some (.vlist old)) :
    evLookup (mergeEvidence ex newEv) k = some v := by
  induction newEv generalizing ex with
  | nil => cases hmem
  | cons p rest ih =>
    obtain ⟨k0, v0⟩ := p
    simp only [List.map_cons, List.nodup_cons] at hnd
    rcases List.mem_cons.mp hmem with hhead | htail
    · injection hhead with h1 h2
      subst h1
      subst h2
      show evLookup (mergeEvidence (mergeStep ex k v) rest) k = _
      rw [evLookup_mergeEvidence_notin _ _ _ hnd.1]
      unfold mergeStep
      rcases hl : evLookup ex k with _ | w
      · rcases v with xs | s <;> exact evLookup_setKey_self _ _ _
      · rcases w with old | s
        · rcases hv : v with xs | s
          · exact absurd hl (hnl xs hv old)
          · exact evLookup_setKey_self _ _ _
        · rcases v with xs | s <;> exact evLookup_setKey_self _ _ _
    · have hk0 : k ≠ k0 := by
        intro heq
        subst heq
        exact hnd.1 (List.mem_map_of_mem Prod.fst htail)
      show evLookup (mergeEvidence (mergeStep ex k0 v0) rest) k = _
      exact ih _ hnd.2 htail (fun xs hxs old hl =>
        hnl xs hxs old (by rw [← evLookup_mergeStep_ne ex k0 v0 k hk0]; exact hl))

theorem mem_updateRow_of_ne (rows : List EdgeRow) (i : Nat) (e' : EdgeRow) (r : EdgeRow)
    (hr : r ∈ rows) (h : ¬r.id = i) : r ∈ updateRow rows i e' := by
  unfold updateRow
  have hm := List.mem_map_of_mem (fun x : EdgeRow => if x.id = i then e' else x) hr
  simp only [if_neg h] at hm
  exact hm

theorem mem_updateRow_self (rows : List EdgeRow) (i : Nat) (e' : EdgeRow) (r : EdgeRow)
    (hr : r ∈ rows) (h : r.id = i) : e' ∈ updateRow rows i e' := by
  unfold updateRow
  have hm := List.mem_map_of_mem (fun x : EdgeRow => if x.id = i then e' else x) hr
  simp only [if_pos h] at hm
  exact hm

theorem save_edge_found (store : GraphStore) (d : EdgeData) (t : EdgeType) (e : EdgeRow)
    (hv : ValidEdgeData d t)
    (hfind : findActiveEdge store.rows (min d.member_a_id d.member_b_id)
      (max d.member_a_id d.member_b_id) t = some e) :
    save_edge store d =
      (if e.strength < d.strength then
        (.ok e.id .updated d.strength,
         { store with
             rows := updateRow store.rows e.id
                       { e with
                           strength := d.strength,
                           evidence := if d.evidence = [] then e.evidence
                                       else mergeEvidence e.evidence d.evidence } })
      else
        (.ok e.id .already_exists e.strength, store)) := by
  rw [save_edge_valid_unfold store d t hv, hfind]

/-- C2: edge upsert is idempotent, monotonic and canonical. On a valid call
that hits an existing active edge of strength `s1`: a new strength `s2 ≤ s1`
leaves the store unchanged and reports "already exists"; a new strength
`s2 > s1` raises the stored strength to `s2` and merges the evidence.
In the merge, a list-valued field present in both dicts becomes the union of
the two lists and every other field is overwritten with the new value.
Calling with the member ids reversed yields the identical result and store,
and no upsert ever lowers the strength of a stored row. -/
theorem save_edge_idempotent_monotonic_canonical :
    (∀ (store : GraphStore) (d : EdgeData) (t : EdgeType) (e : EdgeRow),
      ValidEdgeData d t →
      findActiveEdge store.rows (min d.member_a_id d.member_b_id)
        (max d.member_a_id d.member_b_id) t = some e →
      d.strength ≤ e.strength →
      save_edge store d = (.ok e.id .already_exists e.strength, store))
    ∧
    (∀ (store : GraphStore) (d : EdgeData) (t : EdgeType) (e : EdgeRow),
      ValidEdgeData d t →
      findActiveEdge store.rows (min d.member_a_id d.member_b_id)
        (max d.member_a_id d.member_b_id) t = some e →
      e.strength < d.strength →
      (save_edge store d).1 = .ok e.id .updated d.strength ∧
      (save_edge store d).2.rows = updateRow store.rows e.id
        { e with
            strength := d.strength,
            evidence := if d.evidence = [] then e.evidence
                        else mergeEvidence e.evidence d.evidence })
    ∧
    (∀ (ex newEv : Evidence) (k : String) (xs old : List String),
      (newEv.map Prod.fst).Nodup → (k, EvVal.vlist xs) ∈ newEv →
      evLookup ex k = some (.vlist old) →
      ∃ u, evLookup (mergeEvidence ex newEv) k = some (.vlist u) ∧
        ∀ s, s ∈ u ↔ (s ∈ old ∨ s ∈ xs))
    ∧
    (∀ (ex newEv : Evidence) (k : String) (v : EvVal),
      (newEv.map Prod.fst).Nodup → (k, v) ∈ newEv →
      (∀ xs, v = EvVal.vlist xs → ∀ old, evLookup ex k ≠ some (.vlist old)) →
      evLookup (mergeEvidence ex newEv) k = some v)
    ∧
    (∀ (store : GraphStore) (d : EdgeData),
      save_edge store (swapEdgeData d) = save_edge store d)
    ∧
    (∀ (store : GraphStore) (d : EdgeData) (r : EdgeRow),
      (store.rows.map EdgeRow.id).Nodup → r ∈ store.rows →
      ∃ r' ∈ (save_edge store d).2.rows, r'.id = r.id ∧ r.strength ≤ r'.strength) := by
  refine ⟨?_, ?_, ?_, ?_, ?_, ?_⟩
  · intro store d t e hv hfind hle
    rw [save_edge_found store d t e hv hfind, if_neg (not_lt.mpr hle)]
  · intro store d t e hv hfind hlt
    rw [save_edge_found store d t e hv hfind, if_pos hlt]
    exact ⟨rfl, rfl⟩
  · intro ex newEv k xs old hnd hmem hex
    refine ⟨(old ++ xs).dedup, evLookup_mergeEvidence_union ex newEv k xs old hnd hmem hex, ?_⟩
    intro s
    simp [List.mem_dedup]
  · exact evLookup_mergeEvidence_overwrite
  · intro store d
    show save_edge store ⟨d.member_b_id, d.member_a_id, d.edge_type, d.strength, d.evidence⟩
        = save_edge store d
    unfold save_edge
    dsimp only
    by_cases h0 : d.member_a_id = 0 ∨ d.member_b_id = 0
    · rw [if_pos (Or.symm h0), if_pos h0]
    · rw [if_neg (fun hc => h0 (Or.symm hc)), if_neg h0]
      by_cases hab : d.member_a_id = d.member_b_id
      · rw [if_pos hab.symm, if_pos hab]
      · rw [if_neg (fun hc => hab hc.symm), if_neg hab,
            min_comm d.member_b_id d.member_a_id, max_comm d.member_b_id d.member_a_id]
  · intro store d r hnd hr
    unfold save_edge
    split
    · exact ⟨r, hr, rfl, le_refl _⟩
    split
    · exact ⟨r, hr, rfl, le_refl _⟩
    split
    · exact ⟨r, hr, rfl, le_refl _⟩
    next ts =>
      split
      · exact ⟨r, hr, rfl, le_refl _⟩
      next t hparse =>
        split
        · exact ⟨r, hr, rfl, le_refl _⟩
        dsimp only
        split
        next e hfind =>
          have he : e ∈ store.rows := List.mem_of_find?_eq_some hfind
          split
          next hlt =>
            by_cases hid : r.id = e.id
            · have hre : r = e := List.inj_on_of_nodup_map hnd hr he hid
              refine ⟨_, mem_updateRow_self store.rows e.id _ e he rfl, ?_, ?_⟩
              · show e.id = r.id
                rw [hid]
              · show r.strength ≤ d.strength
                rw [hre]
                exact le_of_lt hlt
            · exact ⟨r, mem_updateRow_of_ne store.rows e.id _ r hr hid, rfl, le_refl _⟩
          next hge =>
            exact ⟨r, hr, rfl, le_refl _⟩
        next hfind =>
          exact ⟨r, List.mem_append_left _ hr, rfl, le_refl _⟩

/-- Witness for `save_edge_idempotent_monotonic_canonical`: the spec
scenario, edge (5, 9, shared_skill, 40) rediscovered at strength 70 with the
ids reversed, yields stored strength 70 with the evidence merged. -/
theorem save_edge_upsert_witness :
    (save_edge egStore egUp).1 = SaveResult.ok 1 .updated 70 ∧
    (save_edge egStore egUp).2.rows = updateRow egStore.rows 1
      { egRow with
          strength := 70,
          evidence := if egUp.evidence = [] then egRow.evidence
                      else mergeEvidence egRow.evidence egUp.evidence } :=
  save_edge_idempotent_monotonic_canonical.2.1 egStore egUp .shared_skill egRow
    ⟨by decide, by decide, by decide, ⟨"shared_skill", rfl, rfl⟩, by decide, by decide⟩
    rfl (by decide)

/-- C9: an edge upsert with equal member ids, with an unrecognized edge type,
or with a strength outside [0,100] returns a validation error and performs no
write: the store is returned unchanged. -/
theorem save_edge_validation_no_write (store : GraphStore) (d : EdgeData)
    (h : d.member_a_id = d.member_b_id
       ∨ (∃ ts, d.edge_type = some ts ∧ parseEdgeType ts = none)
       ∨ d.strength < 0 ∨ 100 < d.strength) :
    (∃ msg, (save_edge store d).1 = .error msg) ∧ (save_edge store d).2 = store := by
  unfold save_edge
  by_cases h0 : d.member_a_id = 0 ∨ d.member_b_id = 0
  · rw [if_pos h0]
    exact ⟨⟨_, rfl⟩, rfl⟩
  rw [if_neg h0]
  by_cases hab : d.member_a_id = d.member_b_id
  · rw [if_pos hab]
    exact ⟨⟨_, rfl⟩, rfl⟩
  rw [if_neg hab]
  split
  · exact ⟨⟨_, rfl⟩, rfl⟩
  next ts hdt =>
    split
    · exact ⟨⟨_, rfl⟩, rfl⟩
    next t hpt =>
      have hs : d.strength < 0 ∨ 100 < d.strength := by
        rcases h with hh | ⟨ts', hts', hp'⟩ | hh | hh
        · exact absurd hh hab
        · rw [hdt] at hts'
          injection hts' with he
          rw [← he, hpt] at hp'
          cases hp'
        · exact Or.inl hh
        · exact Or.inr hh
      rw [if_pos (by omega : ¬(0 ≤ d.strength ∧ d.strength ≤ 100))]
      exact ⟨⟨_, rfl⟩, rfl⟩

/-- Witness for `save_edge_validation_no_write`: a self-edge call on the
sample store is rejected and writes nothing. -/
theorem save_edge_validation_witness :
    (∃ msg, (save_edge egStore ⟨5, 5, some "shared_skill", 50, []⟩).1 = .error msg)
    ∧ (save_edge egStore ⟨5, 5, some "shared_skill", 50, []⟩).2 = egStore :=
  save_edge_validation_no_write egStore ⟨5, 5, some "shared_skill", 50, []⟩ (Or.inl rfl)

theorem sortByScoreDesc_perm (l : List ScoredQ) : (sortByScoreDesc l).Perm l :=
  List.mergeSort_perm l _

theorem sortByScoreDesc_head_max (l : List ScoredQ) (q : ScoredQ) (rest : List ScoredQ)
    (h : sortByScoreDesc l = q :: rest) : ∀ p ∈ l, p.score ≤ q.score := by
  intro p hp
  have hmem : p ∈ sortByScoreDesc l := (sortByScoreDesc_perm l).symm.subset hp
  have hsorted := @List.sorted_mergeSort ScoredQ
    (fun a b : ScoredQ => decide (b.score ≤ a.score))
    (fun a b c hab hbc =>
      decide_eq_true (le_trans (of_decide_eq_true hbc) (of_decide_eq_true hab)))
    (fun a b => by rcases le_total b.score a.score with hh | hh <;> simp [hh])
    l
  rw [h] at hmem
  have hsorted' : List.Pairwise
      (fun a b : ScoredQ => decide (b.score ≤ a.score) = true) (q :: rest) := by
    rw [← h]
    exact hsorted
  rcases List.mem_cons.mp hmem with rfl | hmem'
  · exact le_refl _
  · exact of_decide_eq_true ((List.pairwise_cons.mp hsorted').1 p hmem')

/-- C3 counterexample: with the uniform draw in [0.70, 0.90), an empty
pattern/edge top-5 subset and the top-scored candidate below the caller's
threshold, the code selects no candidate at all, while the claim states the
top-scored candidate is picked as the fallback. -/
theorem selection_fallback_below_threshold_cex :
    ((7 : ℚ)/10 ≤ 4/5 ∧ (4 : ℚ)/5 < 9/10)
    ∧ sortByScoreDesc [⟨1, 10, 0, 0⟩] = [⟨1, 10, 0, 0⟩]
    ∧ selectCandidate (sortByScoreDesc [⟨1, 10, 0, 0⟩]) 40 (4/5) 0 0 = none := by
  refine ⟨⟨by norm_num, by norm_num⟩, by simp [sortByScoreDesc], ?_⟩
  rw [show sortByScoreDesc [⟨1, 10, 0, 0⟩] = [⟨1, 10, 0, 0⟩] from by simp [sortByScoreDesc]]
  norm_num [selectCandidate]

/-- C3 (amended): for the single uniform draw `r` over the sorted pool:
`r < 0.70` picks the top-scored candidate provided it meets the threshold
(tag "highest_score"); `0.70 ≤ r < 0.90` picks the entry the uniform index
draw designates from the subset of the top 5 with non-zero pattern or edge
contribution (tag "top_5_random"), and when that subset is empty falls back
to the top-scored candidate provided it meets the threshold (tag
"highest_score_fallback"), otherwise picking nothing; `r ≥ 0.90` picks the
entry the uniform index draw designates from the entire pool regardless of
score (tag "wildcard"); and every chosen candidate carries one of these
method tags. -/
theorem selection_policy_branches (raw : List ScoredQ) (minScore : Int) (r : ℚ)
    (i5 ipool : Nat) (q : ScoredQ) (rest : List ScoredQ)
    (hsort : sortByScoreDesc raw = q :: rest) :
    (∀ p ∈ raw, p.score ≤ q.score)
    ∧ (r < 7/10 →
        selectCandidate (sortByScoreDesc raw) minScore r i5 ipool
          = if minScore ≤ q.score then some (q, "highest_score") else none)
    ∧ (7/10 ≤ r → r < 9/10 →
        ((((sortByScoreDesc raw).take 5).filter (fun sq =>
            decide (0 < sq.pattern_relevance ∨ 0 < sq.edge_context)) = [] →
          selectCandidate (sortByScoreDesc raw) minScore r i5 ipool
            = if minScore ≤ q.score then some (q, "highest_score_fallback") else none)
         ∧ ∀ h5 : i5 % (((sortByScoreDesc raw).take 5).filter (fun sq =>
              decide (0 < sq.pattern_relevance ∨ 0 < sq.edge_context))).length
              < (((sortByScoreDesc raw).take 5).filter (fun sq =>
              decide (0 < sq.pattern_relevance ∨ 0 < sq.edge_context))).length,
            selectCandidate (sortByScoreDesc raw) minScore r i5 ipool
              = some ((((sortByScoreDesc raw).take 5).filter (fun sq =>
                  decide (0 < sq.pattern_relevance ∨ 0 < sq.edge_context))).get
                    ⟨_, h5⟩, "top_5_random")))
    ∧ (9/10 ≤ r →
        ∀ hp : ipool % (sortByScoreDesc raw).length < (sortByScoreDesc raw).length,
        selectCandidate (sortByScoreDesc raw) minScore r i5 ipool
          = some ((sortByScoreDesc raw).get ⟨_, hp⟩, "wildcard"))
    ∧ (∀ p m, selectCandidate (sortByScoreDesc raw) minScore r i5 ipool = some (p, m) →
        m = "highest_score" ∨ m = "top_5_random" ∨ m = "wildcard"
          ∨ m = "highest_score_fallback") := by
  refine ⟨sortByScoreDesc_head_max raw q rest hsort, ?_, ?_, ?_, ?_⟩
  · intro hr
    rw [selectCandidate.eq_def, if_pos hr, hsort]
  · intro hr1 hr2
    constructor
    · intro h5
      rw [selectCandidate.eq_def, if_neg (not_lt.mpr hr1), if_pos hr2, dif_pos h5, hsort]
    · intro h5
      have hne : ((sortByScoreDesc raw).take 5).filter (fun sq =>
          decide (0 < sq.pattern_relevance ∨ 0 < sq.edge_context)) ≠ [] := by
        intro hc
        rw [hc] at h5
        exact absurd h5 (by simp)
      rw [selectCandidate.eq_def, if_neg (not_lt.mpr hr1), if_pos hr2, dif_neg hne]
  · intro hr hp
    have hne : sortByScoreDesc raw ≠ [] := by
      rw [hsort]
      exact List.cons_ne_nil _ _
    rw [selectCandidate.eq_def, if_neg (by linarith : ¬r < 7/10), if_neg (not_lt.mpr hr),
        dif_neg hne]
  · intro p m hsel
    by_cases hr1 : r < 7/10
    · rw [selectCandidate.eq_def, if_pos hr1, hsort] at hsel
      split at hsel
      · cases hsel
      · split at hsel
        · injection hsel with hh
          injection hh with hh1 hh2
          exact Or.inl hh2.symm
        · cases hsel
    · by_cases hr2 : r < 9/10
      · rw [selectCandidate.eq_def, if_neg hr1, if_pos hr2] at hsel
        by_cases h5 : ((sortByScoreDesc raw).take 5).filter (fun sq =>
            decide (0 < sq.pattern_relevance ∨ 0 < sq.edge_context)) = []
        · rw [dif_pos h5, hsort] at hsel
          split at hsel
          · cases hsel
          · split at hsel
            · injection hsel with hh
              injection hh with hh1 hh2
              exact Or.inr (Or.inr (Or.inr hh2.symm))
            · cases hsel
        · rw [dif_neg h5] at hsel
          injection hsel with hh
          injection hh with hh1 hh2
          exact Or.inr (Or.inl hh2.symm)
      · rw [selectCandidate.eq_def, if_neg hr1, if_neg hr2,
            dif_neg (show sortByScoreDesc raw ≠ [] from hsort ▸ List.cons_ne_nil _ _)] at hsel
        injection hsel with hh
        injection hh with hh1 hh2
        exact Or.inr (Or.inr (Or.inl hh2.symm))

/-- Witness for `selection_policy_branches`: a concrete one-element pool with
a draw below 0.70 selects the top candidate with tag "highest_score". -/
theorem selection_policy_witness :
    selectCandidate (sortByScoreDesc [⟨1, 50, 10, 0⟩]) 40 (1/2) 0 0
      = if (40 : Int) ≤ (⟨1, 50, 10, 0⟩ : ScoredQ).score
        then some (⟨1, 50, 10, 0⟩, "highest_score") else none :=
  (selection_policy_branches [⟨1, 50, 10, 0⟩] 40 (1/2) 0 0 ⟨1, 50, 10, 0⟩ []
    (by simp [sortByScoreDesc])).2.1 (by norm_num)

/-- C10: the batch loop never creates an assignment for a candidate scoring
below `min_score`: every assigned outcome meets the threshold, and in the
wildcard branch a uniformly drawn below-threshold candidate is discarded and
the member is skipped with reason "no_question_met_threshold". -/
theorem batch_no_below_threshold_assignment :
    (∀ (raw : List ScoredQ) (minScore : Int) (r : ℚ) (i5 ipool : Nat)
       (q : ScoredQ) (m : String),
      batchDecision raw minScore r i5 ipool = .assigned q m → minScore ≤ q.score)
    ∧ (∀ (raw : List ScoredQ) (minScore : Int) (r : ℚ) (i5 ipool : Nat),
        9/10 ≤ r → raw ≠ [] →
        ∀ hp : ipool % (sortByScoreDesc raw).length < (sortByScoreDesc raw).length,
        ((sortByScoreDesc raw).get ⟨_, hp⟩).score < minScore →
        batchDecision raw minScore r i5 ipool = .skipped "no_question_met_threshold") := by
  constructor
  · intro raw minScore r i5 ipool q m h
    unfold batchDecision at h
    split at h
    · cases h
    · split at h
      next q' m' hsel =>
        split at h
        next hge =>
          injection h with h1 h2
          rw [← h1]
          exact hge
        next => cases h
      next => cases h
  · intro raw minScore r i5 ipool hr hraw hp hlt
    unfold batchDecision
    rw [if_neg hraw]
    have hne : sortByScoreDesc raw ≠ [] := by
      intro hc
      rw [hc] at hp
      exact absurd hp (by simp)
    rw [selectCandidate.eq_def, if_neg (by linarith : ¬r < 7/10),
        if_neg (not_lt.mpr hr), dif_neg hne]
    exact if_neg (not_le.mpr hlt)

/-- Witness for `batch_no_below_threshold_assignment`: a concrete assigned
outcome meets the threshold. -/
theorem batch_threshold_witness :
    (40 : Int) ≤ (⟨1, 50, 10, 0⟩ : ScoredQ).score :=
  batch_no_below_threshold_assignment.1 [⟨1, 50, 10, 0⟩] 40 (1/2) 0 0
    ⟨1, 50, 10, 0⟩ "highest_score"
    (by rw [batchDecision, if_neg (by simp),
          show sortByScoreDesc [⟨1, 50, 10, 0⟩] = [⟨1, 50, 10, 0⟩] from by
            simp [sortByScoreDesc]]
        norm_num [selectCandidate])

/-- C5 counterexample: the second `assign_question_to_member` call for the
same (question=7, member=3, mobile) triple does not return the existing
assignment record or its id — it returns an "already delivered" error with
the `already_exists` flag. -/
theorem assign_twice_returns_error_cex :
    (assign_question_to_member [7] [3] ⟨[], 0⟩ 7 3 .mobile_swipe).1 = .created 0
    ∧ (assign_question_to_member [7] [3]
        (assign_question_to_member [7] [3] ⟨[], 0⟩ 7 3 .mobile_swipe).2
        7 3 .mobile_swipe).1
      = .error "already delivered" true := by
  decide

/-- C5 (amended): repeating an assignment for the same (question, member,
channel) triple never creates a second delivery record. Via the mobile
`get_or_create_delivery` path the second call returns the identical existing
record and leaves the store unchanged; `assign_question_to_member` rejects
the repeat with an "already exists" error and leaves the store unchanged. -/
theorem assignment_idempotency :
    (∀ (store : DeliveryStore) (question_id member_id : Nat),
      get_or_create_delivery (get_or_create_delivery store question_id member_id).2
          question_id member_id
        = get_or_create_delivery store question_id member_id)
    ∧ (∀ (questions members : List Nat) (store : DeliveryStore)
         (question_id member_id : Nat) (ch : Channel) (i : Nat),
        (assign_question_to_member questions members store question_id member_id ch).1
          = .created i →
        assign_question_to_member questions members
            (assign_question_to_member questions members store question_id member_id ch).2
            question_id member_id ch
          = (.error "already delivered" true,
             (assign_question_to_member questions members store question_id member_id ch).2)) := by
  constructor
  · intro store question_id member_id
    unfold get_or_create_delivery
    rcases hf : store.rows.find? (isActiveMobileFor question_id member_id) with _ | d
    · dsimp only
      have hnew : isActiveMobileFor question_id member_id
          ⟨store.nextId, question_id, member_id, .mobile_swipe, .pending,
           none, none, none, none⟩ = true :=
        decide_eq_true ⟨rfl, rfl, rfl, Or.inl rfl⟩
      rw [List.find?_append, hf]
      simp only [List.find?_cons_of_pos [] hnew, Option.none_or]
    · dsimp only
      rw [hf]
  · intro questions members store question_id member_id ch i h
    by_cases hq : ¬questions.contains question_id = true
    · unfold assign_question_to_member at h
      rw [if_pos hq] at h
      cases h
    by_cases hm : ¬members.contains member_id = true
    · unfold assign_question_to_member at h
      rw [if_neg hq, if_pos hm] at h
      cases h
    rcases hf : store.rows.find? (isDeliveryFor question_id member_id ch) with _ | d0
    · have hfirst : assign_question_to_member questions members store question_id member_id ch
          = (.created store.nextId,
             ⟨store.rows ++ [⟨store.nextId, question_id, member_id, ch, .pending,
                none, none, none, none⟩], store.nextId + 1⟩) := by
        unfold assign_question_to_member
        rw [if_neg hq, if_neg hm, hf]
      rw [hfirst]
      unfold assign_question_to_member
      rw [if_neg hq, if_neg hm]
      dsimp only
      have hnew : isDeliveryFor question_id member_id ch
          ⟨store.nextId, question_id, member_id, ch, .pending,
           none, none, none, none⟩ = true :=
        decide_eq_true ⟨rfl, rfl, rfl⟩
      rw [List.find?_append, hf]
      simp only [List.find?_cons_of_pos [] hnew, Option.none_or]
    · have hfirst : assign_question_to_member questions members store question_id member_id ch
          = (.error "already delivered" true, store) := by
        unfold assign_question_to_member
        rw [if_neg hq, if_neg hm, hf]
      rw [hfirst] at h
      cases h

/-- Witness for `assignment_idempotency`: the second call after a concrete
successful assignment is rejected with the already-exists error and leaves
the store unchanged. -/
theorem assignment_idempotency_witness :
    assign_question_to_member [7] [3]
        (assign_question_to_member [7] [3] ⟨[], 0⟩ 7 3 .mobile_swipe).2 7 3 .mobile_swipe
      = (.error "already delivered" true,
         (assign_question_to_member [7] [3] ⟨[], 0⟩ 7 3 .mobile_swipe).2) :=
  assignment_idempotency.2 [7] [3] ⟨[], 0⟩ 7 3 .mobile_swipe 0 (by decide)

/-- C6: recording an answer for a (question, member) pair with no mobile
delivery in `delivered` or `viewed` state is rejected with an explicit error
and the store is left unchanged; a successful answer sets the terminal
`answered` status and stamps `answered_at`. -/
theorem respond_state_machine :
    (∀ (qts : List (Nat × String)) (store : DeliveryStore)
       (question_id member_id : Nat) (rv : String) (rt : Option Nat) (now : Nat),
      (∀ d ∈ store.rows, d.question_id = question_id → d.member_id = member_id →
        d.channel = Channel.mobile_swipe →
        d.delivery_status ≠ .delivered ∧ d.delivery_status ≠ .viewed) →
      respond_to_question qts store question_id member_id rv rt now
        = (.notFoundDelivery, store))
    ∧ (∀ (qts : List (Nat × String)) (store : DeliveryStore)
         (question_id member_id : Nat) (rv : String) (rt : Option Nat) (now : Nat)
         (d' : DeliveryRow),
        (respond_to_question qts store question_id member_id rv rt now).1 = .ok d' →
        d'.delivery_status = .answered ∧ d'.answered_at = some now) := by
  constructor
  · intro qts store question_id member_id rv rt now hall
    unfold respond_to_question
    have hf : store.rows.find? (isAnswerableFor question_id member_id) = none := by
      rw [List.find?_eq_none]
      intro d hd
      have hprop := hall d hd
      simp only [isAnswerableFor, decide_eq_true_eq]
      rintro ⟨h1, h2, h3, h4⟩
      rcases h4 with h4 | h4
      · exact (hprop h1 h2 h3).1 h4
      · exact (hprop h1 h2 h3).2 h4
    rw [hf]
  · intro qts store question_id member_id rv rt now d' h
    unfold respond_to_question at h
    split at h
    · cases h
    · split at h
      · cases h
      · injection h with h1
        rw [← h1]
        exact ⟨rfl, rfl⟩

/-- Witness for `respond_state_machine`: answering a pair whose only record
is already in the terminal `answered` state is rejected and changes nothing. -/
theorem respond_state_machine_witness :
    respond_to_question [(7, "yes_no")]
        ⟨[⟨0, 7, 3, .mobile_swipe, .answered, some 5, some "yes_no", some "yes", none⟩], 1⟩
        7 3 "yes" none 9
      = (.notFoundDelivery,
         ⟨[⟨0, 7, 3, .mobile_swipe, .answered, some 5, some "yes_no", some "yes", none⟩], 1⟩) :=
  respond_state_machine.1 [(7, "yes_no")]
    ⟨[⟨0, 7, 3, .mobile_swipe, .answered, some 5, some "yes_no", some "yes", none⟩], 1⟩
    7 3 "yes" none 9 (by decide)

theorem overlapFrac_bounds (a c : Finset String) :
    0 ≤ (if c ≠ ∅ then ((a ∩ c).card : ℚ) / ((c.card : ℚ)) else 0)
    ∧ (if c ≠ ∅ then ((a ∩ c).card : ℚ) / ((c.card : ℚ)) else 0) ≤ 1 := by
  split
  · next hne =>
    have hpos : (0 : ℚ) < (c.card : ℚ) := by
      exact_mod_cast Finset.card_pos.mpr (Finset.nonempty_iff_ne_empty.mpr hne)
    constructor
    · positivity
    · rw [div_le_one hpos]
      exact_mod_cast Finset.card_le_card Finset.inter_subset_right
  · norm_num

theorem patternAffinity_bounds (a b c d : Finset String) :
    0 ≤ patternAffinity a b c d ∧ patternAffinity a b c d ≤ 1 := by
  have hs := overlapFrac_bounds a c
  have hi := overlapFrac_bounds b d
  unfold patternAffinity
  constructor
  · nlinarith [hs.1, hs.2, hi.1, hi.2]
  · nlinarith [hs.1, hs.2, hi.1, hi.2]

/-- C7: for a member not listed in a pattern's member set, the affinity is
`0.6 * (|skills ∩ evidence skills| / |evidence skills|) +
0.4 * (|interests ∩ evidence interests| / |evidence interests|)` on the
lower-cased vocabularies, with an empty-evidence term contributing 0; every
affinity lies in [0, 1]; and such a pattern enters the probe-affinity map
(hence contributes to question scores) exactly when its affinity is at least
0.3. -/
theorem pattern_affinity_formula_bounds_threshold :
    (∀ (m : QMember) (p : QPattern),
      affinityFor m p
        = 6/10 * (if evSkills p ≠ ∅
            then ((lowerSet m.skills ∩ evSkills p).card : ℚ) / (((evSkills p).card : ℚ))
            else 0)
        + 4/10 * (if evInterests p ≠ ∅
            then ((lowerSet m.interests ∩ evInterests p).card : ℚ) / (((evInterests p).card : ℚ))
            else 0))
    ∧ (∀ a b c d : Finset String, 0 ≤ patternAffinity a b c d ∧ patternAffinity a b c d ≤ 1)
    ∧ (∀ (m : QMember) (memberId : Nat) (patterns : List QPattern) (p : QPattern),
        p ∈ patterns → ¬p.related_member_ids.contains memberId = true →
        ((p.id, affinityFor m p) ∈ patternAffinities m memberId patterns ↔
          3/10 ≤ affinityFor m p)) := by
  refine ⟨fun m p => rfl, patternAffinity_bounds, ?_⟩
  intro m memberId patterns p hp hnm
  constructor
  · intro hmem
    unfold patternAffinities at hmem
    rcases List.mem_map.mp hmem with ⟨p', hp', heq⟩
    have hpass := (List.mem_filter.mp hp').2
    have hprop := of_decide_eq_true hpass
    injection heq with h1 h2
    rw [← h2]
    exact hprop.2.2
  · intro hthr
    unfold patternAffinities
    refine List.mem_map.mpr ⟨p, List.mem_filter.mpr ⟨hp, decide_eq_true ⟨hnm, ?_, hthr⟩⟩, rfl⟩
    by_contra hbad
    push_neg at hbad
    have hzero : affinityFor m p = 0 := by
      unfold affinityFor patternAffinity
      rw [if_neg (not_not_intro hbad.1), if_neg (not_not_intro hbad.2)]
      norm_num
    rw [hzero] at hthr
    norm_num at hthr

/-- Witness for `pattern_affinity_formula_bounds_threshold`: a pattern with
no evidence vocabulary at all is not a probe candidate, matching its zero
affinity. -/
theorem pattern_affinity_witness :
    ((⟨1, "p", [], [], [], [], []⟩ : QPattern).id,
       affinityFor ⟨[], [], none, none, none, none, none, []⟩ ⟨1, "p", [], [], [], [], []⟩)
      ∈ patternAffinities ⟨[], [], none, none, none, none, none, []⟩ 7
          [⟨1, "p", [], [], [], [], []⟩]
    ↔ 3/10 ≤ affinityFor ⟨[], [], none, none, none, none, none, []⟩
        ⟨1, "p", [], [], [], [], []⟩ :=
  pattern_affinity_formula_bounds_threshold.2.2
    ⟨[], [], none, none, none, none, none, []⟩ 7 [⟨1, "p", [], [], [], [], []⟩]
    ⟨1, "p", [], [], [], [], []⟩ (by simp) (by decide)

/-- C8: at equal difficulty 2, a candidate A probing exactly one pattern at
affinity 0.5 with no other pattern or profile-field link scores exactly 5
points more than a candidate B with no pattern and no profile-field link —
hence at least 5 more. -/
theorem probe_vs_fallback_score_gap (affin : List (Nat × ℚ)) (mpids : List Nat)
    (gaps : List String) (pid aId bId : Nat)
    (haff : affin.lookup pid = some (1/2))
    (hnm : mpids.contains pid = false) :
    (scoreQueueQuestion ⟨aId, 2, [pid], []⟩ affin mpids gaps).score
        - (scoreQueueQuestion ⟨bId, 2, [], []⟩ affin mpids gaps).score = 5
    ∧ 5 ≤ (scoreQueueQuestion ⟨aId, 2, [pid], []⟩ affin mpids gaps).score
        - (scoreQueueQuestion ⟨bId, 2, [], []⟩ affin mpids gaps).score := by
  have hnm' : pid ∉ mpids := by simpa using hnm
  have hA : (scoreQueueQuestion ⟨aId, 2, [pid], []⟩ affin mpids gaps).score = 51/10 := by
    simp [scoreQueueQuestion, haff, hnm']
    norm_num
  have hB : (scoreQueueQuestion ⟨bId, 2, [], []⟩ affin mpids gaps).score = 1/10 := by
    simp [scoreQueueQuestion]
  rw [hA, hB]
  norm_num

/-- Witness for `probe_vs_fallback_score_gap` at a concrete affinity map. -/
theorem probe_vs_fallback_witness :
    (scoreQueueQuestion ⟨21, 2, [3], []⟩ [(3, 1/2)] [] []).score
        - (scoreQueueQuestion ⟨22, 2, [], []⟩ [(3, 1/2)] [] []).score = 5
    ∧ 5 ≤ (scoreQueueQuestion ⟨21, 2, [3], []⟩ [(3, 1/2)] [] []).score
        - (scoreQueueQuestion ⟨22, 2, [], []⟩ [(3, 1/2)] [] []).score :=
  probe_vs_fallback_score_gap [(3, 1/2)] [] [] 3 21 22 rfl rfl

theorem keyGe_trans (x y z : Nat × ℚ) (h1 : keyGe x y) (h2 : keyGe y z) : keyGe x z := by
  rcases h1 with h1 | ⟨h1, h1'⟩ <;> rcases h2 with h2 | ⟨h2, h2'⟩
  · exact Or.inl (lt_trans h2 h1)
  · exact Or.inl (by omega)
  · exact Or.inl (by omega)
  · exact Or.inr ⟨by omega, le_trans h2' h1'⟩

theorem keyGe_total (x y : Nat × ℚ) : keyGe x y ∨ keyGe y x := by
  rcases lt_trichotomy y.1 x.1 with h | h | h
  · exact Or.inl (Or.inl h)
  · rcases le_total y.2 x.2 with h2 | h2
    · exact Or.inl (Or.inr ⟨h, h2⟩)
    · exact Or.inr (Or.inr ⟨h.symm, h2⟩)
  · exact Or.inr (Or.inl h)

theorem bucketLe_trans (pd : Nat) (pr : QReason) :
    ∀ a b c : ScoredQ4, bucketLe pd pr a b = true → bucketLe pd pr b c = true →
      bucketLe pd pr a c = true :=
  fun _ _ _ h1 h2 =>
    decide_eq_true (keyGe_trans _ _ _ (of_decide_eq_true h1) (of_decide_eq_true h2))

theorem bucketLe_total (pd : Nat) (pr : QReason) :
    ∀ a b : ScoredQ4, (bucketLe pd pr a b || bucketLe pd pr b a) = true := by
  intro a b
  rcases keyGe_total (bucketKey pd pr a) (bucketKey pd pr b) with h | h
  · simp [bucketLe, h]
  · simp [bucketLe, h]

theorem mergeSort_head_le_all {α : Type} (le : α → α → Bool)
    (htrans : ∀ a b c, le a b = true → le b c = true → le a c = true)
    (htotal : ∀ a b, (le a b || le b a) = true)
    (l : List α) (q : α) (rest : List α) (h : l.mergeSort le = q :: rest) :
    ∀ p ∈ l, le q p = true := by
  intro p hp
  have hmem : p ∈ l.mergeSort le := (List.mergeSort_perm l le).symm.subset hp
  have hsorted := List.sorted_mergeSort htrans htotal l
  rw [h] at hmem hsorted
  rcases List.mem_cons.mp hmem with rfl | hmem'
  · simpa using htotal p p
  · exact (List.pairwise_cons.mp hsorted).1 p hmem'

theorem pick_not_d3_when_gap (rem : List ScoredQ4) (x : ScoredQ4) (xs : List ScoredQ4)
    (hsort : rem.mergeSort (bucketLe 1 .profile_gap) = x :: xs)
    (g : ScoredQ4) (hg : g ∈ rem) (hgd : g.difficulty = 1)
    (hgr : g.reason = QReason.profile_gap) :
    x.difficulty ≠ 3 := by
  intro hx3
  have hle := mergeSort_head_le_all (bucketLe 1 .profile_gap)
    (bucketLe_trans 1 .profile_gap) (bucketLe_total 1 .profile_gap) rem x xs hsort g hg
  have hge := of_decide_eq_true hle
  unfold keyGe bucketKey at hge
  rw [hgd, hgr, hx3] at hge
  simp only [if_pos rfl] at hge
  norm_num at hge
  by_cases hxr : x.reason = QReason.profile_gap <;> simp [hxr] at hge

theorem fillBucket_len (pd : Nat) (pr : QReason) :
    ∀ (k : Nat) (rem : List ScoredQ4), k ≤ rem.length →
      (fillBucket pd pr k rem).1.length = k ∧
      (fillBucket pd pr k rem).2.length = rem.length - k := by
  intro k
  induction k with
  | zero =>
    intro rem _
    refine ⟨rfl, ?_⟩
    show rem.length = rem.length - 0
    omega
  | succ k ih =>
    intro rem h
    rcases rem with _ | ⟨x, xs⟩
    · cases h
    · have hlen : ((x :: xs).mergeSort (bucketLe pd pr)).length = xs.length + 1 :=
        @List.length_mergeSort ScoredQ4 (bucketLe pd pr) (x :: xs)
      have htail : ((x :: xs).mergeSort (bucketLe pd pr)).tail.length = xs.length := by
        rw [List.length_tail, hlen]
        omega
      have hk : k ≤ ((x :: xs).mergeSort (bucketLe pd pr)).tail.length := by
        rw [htail]
        simp only [List.length_cons] at h
        omega
      have hrec := ih _ hk
      rw [fillBucket]
      refine ⟨?_, ?_⟩
      · simp only [List.length_cons, hrec.1]
      · rw [hrec.2, htail]
        simp only [List.length_cons]
        omega

theorem sequenceQueue_length (qs : List ScoredQ4) :
    (sequenceQueue qs).length = min 10 qs.length := by
  have h1 := fillBucket_len 1 .profile_gap (min 3 qs.length) qs (by omega)
  have h2 := fillBucket_len 2 .pattern_probe
    (min 4 (fillBucket 1 .profile_gap (min 3 qs.length) qs).2.length)
    (fillBucket 1 .profile_gap (min 3 qs.length) qs).2 (by omega)
  have h3 := fillBucket_len 3 .pattern_deepen
    (min 3 (fillBucket 2 .pattern_probe
      (min 4 (fillBucket 1 .profile_gap (min 3 qs.length) qs).2.length)
      (fillBucket 1 .profile_gap (min 3 qs.length) qs).2).2.length)
    (fillBucket 2 .pattern_probe
      (min 4 (fillBucket 1 .profile_gap (min 3 qs.length) qs).2.length)
      (fillBucket 1 .profile_gap (min 3 qs.length) qs).2).2 (by omega)
  unfold sequenceQueue
  simp only [List.length_append]
  omega

theorem fillBucket_gap_priority :
    ∀ (k : Nat) (rem : List ScoredQ4) (i : Nat) (e : ScoredQ4),
      (fillBucket 1 .profile_gap k rem).1.get? i = some e →
      e.difficulty = 3 →
      ∀ g ∈ rem, g.difficulty = 1 → g.reason = QReason.profile_gap →
        g ∈ (fillBucket 1 .profile_gap k rem).1.take i := by
  intro k
  induction k with
  | zero =>
    intro rem i e hget
    rw [fillBucket] at hget
    cases hget
  | succ k ih =>
    intro rem i e hget hd3 g hg hgd hgr
    rcases rem with _ | ⟨x, xs⟩
    · rw [fillBucket] at hget
      cases hget
    · rcases hsort : (x :: xs).mergeSort (bucketLe 1 .profile_gap) with _ | ⟨best, rest⟩
      · have hlen := @List.length_mergeSort ScoredQ4 (bucketLe 1 .profile_gap) (x :: xs)
        rw [hsort] at hlen
        cases hlen
      · have heq : fillBucket 1 .profile_gap (k + 1) (x :: xs)
            = (best :: (fillBucket 1 .profile_gap k rest).1,
               (fillBucket 1 .profile_gap k rest).2) := by
          rw [fillBucket, hsort]
          rfl
        rw [heq] at hget ⊢
        have hgsorted : g ∈ best :: rest := by
          rw [← hsort]
          exact (List.mergeSort_perm (x :: xs) (bucketLe 1 .profile_gap)).symm.subset hg
        rcases i with _ | j
        · exfalso
          simp only [List.get?_cons_zero, Option.some.injEq] at hget
          rw [← hget] at hd3
          exact pick_not_d3_when_gap (x :: xs) best rest hsort g hg hgd hgr hd3
        · simp only [List.get?_cons_succ] at hget
          rw [List.take_succ_cons]
          by_cases hgb : g = best
          · exact hgb ▸ List.mem_cons_self _ _
          · have hgrest : g ∈ rest := by
              rcases List.mem_cons.mp hgsorted with h | h
              · exact absurd h hgb
              · exact h
            exact List.mem_cons_of_mem _ (ih rest j e hget hd3 g hgrest hgd hgr)

/-- C4: the queue builder returns at most 10 items and never more than the
available question pool; every bucket pass places exactly
`min (bucket size) (pool size)` items, so sequencing never fails on a short
pool; and a difficulty-3 question can sit at one of positions 1-3 only after
every difficulty-1 question tagged `profile_gap` has already been placed
before it. -/
theorem build_queue_length_and_sequencing :
    (∀ (memberId : Nat) (m : QMember) (patterns : List QPattern)
       (questions : List QQuestion),
      (buildQueue memberId m patterns questions).length ≤ 10 ∧
      (buildQueue memberId m patterns questions).length ≤ questions.length)
    ∧ (∀ (pd : Nat) (pr : QReason) (c : Nat) (rem : List ScoredQ4),
        (fillBucket pd pr (min c rem.length) rem).1.length = min c rem.length)
    ∧ (∀ (qs : List ScoredQ4) (i : Nat) (e : ScoredQ4), i < 3 →
        (sequenceQueue qs).get? i = some e → e.difficulty = 3 →
        ∀ g ∈ qs, g.difficulty = 1 → g.reason = QReason.profile_gap →
          g ∈ (sequenceQueue qs).take i) := by
  refine ⟨?_, ?_, ?_⟩
  · intro memberId m patterns questions
    unfold buildQueue sortQ4ByScoreDesc
    rw [sequenceQueue_length, List.length_take, List.length_mergeSort, List.length_map]
    omega
  · intro pd pr c rem
    exact (fillBucket_len pd pr (min c rem.length) rem (by omega)).1
  · intro qs i e hi3 hget hd3 g hg hgd hgr
    have hb1 := fillBucket_len 1 .profile_gap (min 3 qs.length) qs (by omega)
    have hseq : sequenceQueue qs
        = (fillBucket 1 QReason.profile_gap (min 3 qs.length) qs).1
          ++ (fillBucket 2 QReason.pattern_probe
               (min 4 (fillBucket 1 QReason.profile_gap (min 3 qs.length) qs).2.length)
               (fillBucket 1 QReason.profile_gap (min 3 qs.length) qs).2).1
          ++ (fillBucket 3 QReason.pattern_deepen
               (min 3 (fillBucket 2 QReason.pattern_probe
                 (min 4 (fillBucket 1 QReason.profile_gap (min 3 qs.length) qs).2.length)
                 (fillBucket 1 QReason.profile_gap (min 3 qs.length) qs).2).2.length)
               (fillBucket 2 QReason.pattern_probe
                 (min 4 (fillBucket 1 QReason.profile_gap (min 3 qs.length) qs).2.length)
                 (fillBucket 1 QReason.profile_gap (min 3 qs.length) qs).2).2).1 := rfl
    have hlt : i < (fillBucket 1 QReason.profile_gap (min 3 qs.length) qs).1.length := by
      rcases Nat.lt_or_ge i (fillBucket 1 QReason.profile_gap (min 3 qs.length) qs).1.length
        with h | h
      · exact h
      · exfalso
        have hlen := sequenceQueue_length qs
        obtain ⟨hlt2, -⟩ := List.get?_eq_some.mp hget
        omega
    have hget1 : (fillBucket 1 QReason.profile_gap (min 3 qs.length) qs).1.get? i = some e := by
      rw [hseq, List.get?_append (by rw [List.length_append]; omega),
          List.get?_append hlt] at hget
      exact hget
    have hmem := fillBucket_gap_priority (min 3 qs.length) qs i e hget1 hd3 g hg hgd hgr
    rw [hseq, List.take_append_of_le_length (by rw [List.length_append]; omega),
        List.take_append_of_le_length (le_of_lt hlt)]
    exact hmem

/-- Witness for `build_queue_length_and_sequencing`: a single difficulty-3
entry sits at position 1, and the pool holds no difficulty-1 `profile_gap`
entry at all. -/
theorem build_queue_sequencing_witness :
    ∀ g ∈ [(⟨9, 3, 1/10, QReason.minimum⟩ : ScoredQ4)], g.difficulty = 1 →
      g.reason = QReason.profile_gap →
      g ∈ (sequenceQueue [⟨9, 3, 1/10, QReason.minimum⟩]).take 0 :=
  build_queue_length_and_sequencing.2.2 [⟨9, 3, 1/10, QReason.minimum⟩] 0
    ⟨9, 3, 1/10, QReason.minimum⟩ (by norm_num)
    (by rw [show sequenceQueue [(⟨9, 3, 1/10, QReason.minimum⟩ : ScoredQ4)]
          = [⟨9, 3, 1/10, QReason.minimum⟩] from by
        unfold sequenceQueue
        simp [fillBucket, List.mergeSort_singleton]]
        rfl)
    rfl

end ProfileOptimizer
